import Mathlib

/-!
# Scudo hardened allocator: chunk header and alignment constants

A shallow embedding of `llvm/projects/compiler-rt/lib/scudo/scudo_allocator.h`.
Machine integers are natural numbers reduced modulo the word size; the
bit-field structure `UnpackedHeader` is a record of naturals together with the
predicate `UnpackedHeader.Valid` saying that every field fits its declared
width.
-/

namespace Scudo

/-! ## Targets and machine arithmetic -/

/-- The two word sizes the header distinguishes (SANITIZER_WORDSIZE). -/
inductive Target where
  | w32
  | w64
  deriving DecidableEq, Repr

/-- Width in bits of `uptr` on a target. -/
def Target.bits : Target → Nat
  | .w32 => 32
  | .w64 => 64

/-- Modelled from the spec: `FIRST_32_SECOND_64` is defined in
sanitizer_common, outside the source file. Following the comment on line 63
(minimum alignment of 8 bytes for 32-bit, 16 for 64-bit) it selects its first
argument on a 32-bit target and its second argument on a 64-bit target. -/
def FIRST_32_SECOND_64 (t : Target) (a b : Nat) : Nat :=
  match t with
  | .w32 => a
  | .w64 => b

/-- Unsigned addition on `w`-bit words. -/
def uadd (w a b : Nat) : Nat := (a + b) % 2 ^ w

/-- Unsigned subtraction on `w`-bit words (wraps around below zero). -/
def usub (w a b : Nat) : Nat := (a % 2 ^ w + 2 ^ w - b % 2 ^ w) % 2 ^ w

/-- Bitwise complement on `w`-bit words. -/
def unot (w a : Nat) : Nat := 2 ^ w - 1 - a % 2 ^ w

/-- The expression `(n + a - 1) & ~(a - 1)` evaluated on `w`-bit words, as
written on lines 70-71 of the header. -/
def alignUp (w n a : Nat) : Nat :=
  usub w (uadd w n a) 1 &&& unot w (usub w a 1)

/-! ## Enumerations (lines 27-38) -/

/-- The `AllocType` enumeration. -/
inductive AllocType where
  | FromMalloc
  | FromNew
  | FromNewArray
  | FromMemalign
  deriving DecidableEq, Repr

/-- Numeric value of an `AllocType` enumerator. -/
def AllocType.toNat : AllocType → Nat
  | .FromMalloc => 0
  | .FromNew => 1
  | .FromNewArray => 2
  | .FromMemalign => 3

/-- The `ChunkState` enumeration. -/
inductive ChunkState where
  | ChunkAvailable
  | ChunkAllocated
  | ChunkQuarantine
  deriving DecidableEq, Repr

/-- Numeric value of a `ChunkState` enumerator. -/
def ChunkState.toNat : ChunkState → Nat
  | .ChunkAvailable => 0
  | .ChunkAllocated => 1
  | .ChunkQuarantine => 2

/-! ## The header (lines 45-61) -/

/-- Number of bits of `PackedHeader`, a `u64`. -/
def PackedHeaderBits : Nat := 64

/-- The value of `sizeof(PackedHeader)` in bytes. -/
def sizeofPackedHeader : Nat := PackedHeaderBits / 8

/-- The seven bit-fields of `UnpackedHeader`, in declaration order. -/
inductive Field where
  | Checksum
  | SizeOrUnusedBytes
  | FromPrimary
  | State
  | AllocType
  | Offset
  | Salt
  deriving DecidableEq, Repr

/-- Declaration order of the fields. -/
def Field.all : List Field :=
  [.Checksum, .SizeOrUnusedBytes, .FromPrimary, .State, .AllocType, .Offset, .Salt]

/-- Position of a field in the declaration. -/
def Field.index : Field → Nat
  | .Checksum => 0
  | .SizeOrUnusedBytes => 1
  | .FromPrimary => 2
  | .State => 3
  | .AllocType => 4
  | .Offset => 5
  | .Salt => 6

/-- Declared width of each bit-field. -/
def Field.width : Field → Nat
  | .Checksum => 16
  | .SizeOrUnusedBytes => 19
  | .FromPrimary => 1
  | .State => 2
  | .AllocType => 2
  | .Offset => 16
  | .Salt => 8

/-- Bit-field allocation for fields of one storage-unit type of `unit` bits:
fields are laid out in declaration order starting from the least significant
bit; a field that would straddle a unit boundary starts at the next unit.
Returns the bit offset of every field and the first free bit position. -/
def layoutBitfields (unit : Nat) : Nat → List Nat → List Nat × Nat
  | pos, [] => ([], pos)
  | pos, w :: ws =>
    let start := if pos % unit + w ≤ unit then pos else (pos / unit + 1) * unit
    let rest := layoutBitfields unit (start + w) ws
    (start :: rest.1, rest.2)

/-- Layout of `UnpackedHeader`: every field has type `u64`. -/
def headerLayout : List Nat × Nat :=
  layoutBitfields PackedHeaderBits 0 (Field.all.map Field.width)

/-- Bit offset of a field inside the header word. -/
def Field.offset (f : Field) : Nat := headerLayout.1.getD f.index 0

/-- The value of `sizeof(UnpackedHeader)` in bytes: the occupied storage
units of eight bytes each. -/
def sizeofUnpackedHeader : Nat :=
  (headerLayout.2 + PackedHeaderBits - 1) / PackedHeaderBits * (PackedHeaderBits / 8)

/-- The condition of `COMPILER_CHECK` on line 61. -/
def headerCompilerCheck : Bool := sizeofUnpackedHeader == sizeofPackedHeader

/-- The bit-field structure `UnpackedHeader`; each field holds a natural
number, constrained to its width by `UnpackedHeader.Valid`. -/
structure UnpackedHeader where
  Checksum : Nat
  SizeOrUnusedBytes : Nat
  FromPrimary : Nat
  State : Nat
  AllocType : Nat
  Offset : Nat
  Salt : Nat
  deriving DecidableEq, Repr

/-- Every field is within its declared width. -/
def UnpackedHeader.Valid (h : UnpackedHeader) : Prop :=
  h.Checksum < 2 ^ 16 ∧ h.SizeOrUnusedBytes < 2 ^ 19 ∧ h.FromPrimary < 2 ∧
  h.State < 4 ∧ h.AllocType < 4 ∧ h.Offset < 2 ^ 16 ∧ h.Salt < 2 ^ 8

instance (h : UnpackedHeader) : Decidable h.Valid := by
  unfold UnpackedHeader.Valid
  infer_instance

/-- Assignment to the 2-bit `State` field: the value is converted to the
width of the field. -/
def UnpackedHeader.setState (h : UnpackedHeader) (v : Nat) : UnpackedHeader :=
  { h with State := v % 2 ^ Field.State.width }

/-- Assignment to the 2-bit `AllocType` field. -/
def UnpackedHeader.setAllocType (h : UnpackedHeader) (v : Nat) : UnpackedHeader :=
  { h with AllocType := v % 2 ^ Field.AllocType.width }

/-- Assignment to the 16-bit `Offset` field. -/
def UnpackedHeader.setOffset (h : UnpackedHeader) (v : Nat) : UnpackedHeader :=
  { h with Offset := v % 2 ^ Field.Offset.width }

/-- Assignment to the 16-bit `Checksum` field. -/
def UnpackedHeader.setChecksum (h : UnpackedHeader) (v : Nat) : UnpackedHeader :=
  { h with Checksum := v % 2 ^ Field.Checksum.width }

/-- Modelled from the spec: `pack` is the pure bit-layout transform of
section 4.1 from `UnpackedHeader` to the 64-bit `PackedHeader` (its body is in
scudo_allocator.cpp, outside the source). Each field is shifted to its bit
offset in the layout of the structure declared on lines 46-58. -/
def pack (h : UnpackedHeader) : Nat :=
  (h.Checksum <<< Field.Checksum.offset) |||
  (h.SizeOrUnusedBytes <<< Field.SizeOrUnusedBytes.offset) |||
  (h.FromPrimary <<< Field.FromPrimary.offset) |||
  (h.State <<< Field.State.offset) |||
  (h.AllocType <<< Field.AllocType.offset) |||
  (h.Offset <<< Field.Offset.offset) |||
  (h.Salt <<< Field.Salt.offset)

/-- The bits of field `f` in the word `w`. -/
def extractField (w : Nat) (f : Field) : Nat :=
  (w >>> f.offset) &&& (2 ^ f.width - 1)

/-- Modelled from the spec: `unpack` is the pure bit-layout transform of
section 4.1 from the 64-bit `PackedHeader` to `UnpackedHeader` (its body is in
scudo_allocator.cpp, outside the source). Each field is read from its bit
range in the layout of the structure declared on lines 46-58. -/
def unpack (w : Nat) : UnpackedHeader :=
  { Checksum := extractField w .Checksum
    SizeOrUnusedBytes := extractField w .SizeOrUnusedBytes
    FromPrimary := extractField w .FromPrimary
    State := extractField w .State
    AllocType := extractField w .AllocType
    Offset := extractField w .Offset
    Salt := extractField w .Salt }

/-! ## Alignment constants (lines 63-71) -/

/-- Line 64: `FIRST_32_SECOND_64(3, 4)`. -/
def MinAlignmentLog (t : Target) : Nat := FIRST_32_SECOND_64 t 3 4

/-- Line 65. -/
def MaxAlignmentLog : Nat := 24

/-- Line 66: `1 << MinAlignmentLog`, converted to `uptr`. -/
def MinAlignment (t : Target) : Nat := (1 <<< MinAlignmentLog t) % 2 ^ t.bits

/-- Line 67: `1 << MaxAlignmentLog`, converted to `uptr`. -/
def MaxAlignment (t : Target) : Nat := (1 <<< MaxAlignmentLog) % 2 ^ t.bits

/-- Line 69: `sizeof(PackedHeader)`. -/
def ChunkHeaderSize : Nat := sizeofPackedHeader

/-- Lines 70-71: `(ChunkHeaderSize + MinAlignment - 1) & ~(MinAlignment - 1)`. -/
def AlignedChunkHeaderSize (t : Target) : Nat :=
  alignUp t.bits ChunkHeaderSize (MinAlignment t)

/-- The offset, in multiples of `MinAlignment`, that an alignment `A` asks of
the `Offset` field: `(A - AlignedChunkHeaderSize) >> MinAlignmentLog`. -/
def offsetForAlignment (t : Target) (A : Nat) : Nat :=
  usub t.bits A (AlignedChunkHeaderSize t) >>> MinAlignmentLog t

/-- The number `r` is the least multiple of `a` that is at least `n`. -/
def IsLeastMultipleGE (a n r : Nat) : Prop :=
  a ∣ r ∧ n ≤ r ∧ ∀ m, a ∣ m → n ≤ m → r ≤ m

/-! ## The chunk protocol (specification sections 4.1 to 4.3, 5 and 7) -/

/-- Modelled from the spec: the error taxonomy of section 7; the operations
that raise these errors are defined in scudo_allocator.cpp, outside the
source. -/
inductive ScudoError where
  | CorruptHeader
  | DoubleFreeOrCorruption
  | AllocationTypeMismatch
  | UnsupportedAlignment
  | SizeOverflow
  | OutOfMemory
  deriving DecidableEq, Repr

/-- Modelled from the spec: the once-initialised, read-only context of
sections 5, 6 and 9 (it lives in scudo_allocator.cpp and scudo_flags.h, outside
the source): the process secret, the digest function, whose algorithm the
specification leaves open, and the configuration snapshot: whether the
quarantine is enabled, whether an allocation-type mismatch is fatal or merely
reported (section 6), and whether integrity violations terminate the process
or, in the relaxed mode of section 7, are logged and the operation treated as
a no-op. The digest takes the chunk address, the header fields excluding the
checksum, and the secret. -/
structure Context where
  secret : Nat
  digest : Nat → Nat → Nat → Nat
  quarantineEnabled : Bool
  typeMismatchFatal : Bool
  relaxedMode : Bool

/-- Modelled from the spec: memory as seen by the header codec of section
4.1, which reads and writes one whole 64-bit word at a chunk address; the
accesses themselves are in scudo_allocator.cpp, outside the source. -/
abbrev Memory := Nat → Nat

/-- Modelled from the spec: `checksum(address, header-fields-excluding-checksum,
secret)` of section 4.1, a 16-bit digest; its body is outside the source. The
fields other than the checksum are handed to the digest as the packed header
with a zero checksum. -/
def computeChecksum (ctx : Context) (addr : Nat) (h : UnpackedHeader) : Nat :=
  ctx.digest addr (pack { h with Checksum := 0 }) ctx.secret % 2 ^ 16

/-- Modelled from the spec: `storeHeader(chunkAddress, header)` of section 4.1
(body outside the source) performs the pack, recomputes and inserts the
checksum, and performs a single 64-bit store. -/
def storeHeader (ctx : Context) (mem : Memory) (addr : Nat) (h : UnpackedHeader) : Memory :=
  fun a => if a = addr then pack (h.setChecksum (computeChecksum ctx addr h)) else mem a

/-- Modelled from the spec: `loadHeader(chunkAddress)` of section 4.1 (body
outside the source) performs a single 64-bit load, unpacks, recomputes the
expected checksum from the loaded fields, and fails with `CorruptHeader` if the
stored checksum does not match. -/
def loadHeader (ctx : Context) (mem : Memory) (addr : Nat) : Except ScudoError UnpackedHeader :=
  let h := unpack (mem addr % 2 ^ PackedHeaderBits)
  if h.Checksum = computeChecksum ctx addr h then .ok h else .error .CorruptHeader

/-- Flip bit `i` of the word stored at `addr`. -/
def flipBit (mem : Memory) (addr i : Nat) : Memory :=
  fun a => if a = addr then mem a ^^^ (1 <<< i) else mem a

/-- Modelled from the spec: the argument validation of `allocate(size,
alignment, allocType)` of section 4.3 (the bodies of `scudoMalloc` and
`scudoMemalign`, declared on lines 112 and 117, are in scudo_allocator.cpp,
outside the source). An alignment greater than `MaxAlignment` is rejected with
`UnsupportedAlignment`; a size that overflows the address arithmetic together
with the header is rejected with `SizeOverflow`. Backend selection, block
acquisition and header stamping are the collaborator `place`, which returns
the user pointer, or nothing when the backend is out of memory. -/
def allocate (t : Target) (place : Nat → Nat → AllocType → Option Nat)
    (size alignment : Nat) (ty : AllocType) : Except ScudoError Nat :=
  if MaxAlignment t < alignment then .error .UnsupportedAlignment
  else if 2 ^ t.bits ≤ size + AlignedChunkHeaderSize t then .error .SizeOverflow
  else
    match place size alignment ty with
    | none => .error .OutOfMemory
    | some p => .ok p

/-! ## Sample values -/

/-- A sample context: quarantine enabled, strict type checking, and a digest
that adds its three inputs. -/
def sampleContext : Context :=
  { secret := 48879
    digest := fun addr fields secret => addr + fields + secret
    quarantineEnabled := true
    typeMismatchFatal := true
    relaxedMode := false }

/-- A sample header of a 40-byte chunk from the primary backend, allocated by
a plain allocation, not yet checksummed. -/
def sampleHeader : UnpackedHeader :=
  { Checksum := 0
    SizeOrUnusedBytes := 40
    FromPrimary := 1
    State := ChunkState.ChunkAllocated.toNat
    AllocType := AllocType.FromMalloc.toNat
    Offset := 0
    Salt := 7 }

/-- A sample memory: all zero but for the sample header stored at 4096. -/
def sampleMemory : Memory := storeHeader sampleContext (fun _ => 0) 4096 sampleHeader

/-- A sample backend that always hands out the same pointer. -/
def samplePlace : Nat → Nat → AllocType → Option Nat := fun _ _ _ => some 4112

/-! ## Layout facts -/

theorem offset_Checksum : Field.Checksum.offset = 0 := by decide

theorem offset_SizeOrUnusedBytes : Field.SizeOrUnusedBytes.offset = 16 := by decide

theorem offset_FromPrimary : Field.FromPrimary.offset = 35 := by decide

theorem offset_State : Field.State.offset = 36 := by decide

theorem offset_AllocType : Field.AllocType.offset = 38 := by decide

theorem offset_Offset : Field.Offset.offset = 40 := by decide

theorem offset_Salt : Field.Salt.offset = 56 := by decide

/-- Shifting a value left past a narrower one and joining them is addition. -/
theorem or_shiftLeft_eq_add {a : Nat} (b k : Nat) (ha : a < 2 ^ k) :
    a ||| (b <<< k) = a + b * 2 ^ k := by
  rw [Nat.shiftLeft_eq, Nat.or_comm, Nat.mul_comm b, ← Nat.mul_add_lt_is_or ha]
  omega

/-- Arithmetic form of `pack` on headers whose fields fit their widths. -/
theorem pack_eq_sum (h : UnpackedHeader) (hv : h.Valid) :
    pack h = h.Checksum + h.SizeOrUnusedBytes * 2 ^ 16 + h.FromPrimary * 2 ^ 35 +
      h.State * 2 ^ 36 + h.AllocType * 2 ^ 38 + h.Offset * 2 ^ 40 + h.Salt * 2 ^ 56 := by
  obtain ⟨h1, h2, h3, h4, h5, h6, h7⟩ := hv
  unfold pack
  simp only [offset_Checksum, offset_SizeOrUnusedBytes, offset_FromPrimary, offset_State,
    offset_AllocType, offset_Offset, offset_Salt, Nat.shiftLeft_zero]
  rw [or_shiftLeft_eq_add _ 16 h1]
  rw [or_shiftLeft_eq_add _ 35 (by omega)]
  rw [or_shiftLeft_eq_add _ 36 (by omega)]
  rw [or_shiftLeft_eq_add _ 38 (by omega)]
  rw [or_shiftLeft_eq_add _ 40 (by omega)]
  rw [or_shiftLeft_eq_add _ 56 (by omega)]

/-- Arithmetic form of field extraction. -/
theorem extractField_eq (w : Nat) (f : Field) :
    extractField w f = w / 2 ^ f.offset % 2 ^ f.width := by
  unfold extractField
  rw [Nat.and_pow_two_sub_one_eq_mod, Nat.shiftRight_eq_div_pow]

/-- Arithmetic form of `unpack`. -/
theorem unpack_eq (w : Nat) :
    unpack w =
      { Checksum := w % 2 ^ 16
        SizeOrUnusedBytes := w / 2 ^ 16 % 2 ^ 19
        FromPrimary := w / 2 ^ 35 % 2
        State := w / 2 ^ 36 % 4
        AllocType := w / 2 ^ 38 % 4
        Offset := w / 2 ^ 40 % 2 ^ 16
        Salt := w / 2 ^ 56 % 2 ^ 8 } := by
  unfold unpack
  simp only [extractField_eq, offset_Checksum, offset_SizeOrUnusedBytes, offset_FromPrimary,
    offset_State, offset_AllocType, offset_Offset, offset_Salt, Field.width]
  simp

/-- Every word unpacks to a header whose fields fit their widths. -/
theorem unpack_valid (w : Nat) : (unpack w).Valid := by
  rw [unpack_eq]
  unfold UnpackedHeader.Valid
  simp only
  omega

/-- Unpacking a packed in-range header returns it. -/
theorem unpack_pack (h : UnpackedHeader) (hv : h.Valid) : unpack (pack h) = h := by
  rw [unpack_eq, pack_eq_sum h hv]
  obtain ⟨h1, h2, h3, h4, h5, h6, h7⟩ := hv
  cases h
  simp only [UnpackedHeader.mk.injEq] at *
  omega

/-- Packing an unpacked 64-bit word returns it. -/
theorem pack_unpack (w : Nat) (hw : w < 2 ^ 64) : pack (unpack w) = w := by
  rw [pack_eq_sum _ (unpack_valid w), unpack_eq]
  simp only
  omega

/-- A packed in-range header is a 64-bit word. -/
theorem pack_lt (h : UnpackedHeader) (hv : h.Valid) : pack h < 2 ^ 64 := by
  rw [pack_eq_sum h hv]
  obtain ⟨h1, h2, h3, h4, h5, h6, h7⟩ := hv
  omega

/-! ## Header codec facts -/

theorem setChecksum_valid (h : UnpackedHeader) (hv : h.Valid) (c : Nat) :
    (h.setChecksum c).Valid := by
  obtain ⟨h1, h2, h3, h4, h5, h6, h7⟩ := hv
  refine ⟨?_, h2, h3, h4, h5, h6, h7⟩
  show c % 2 ^ Field.Checksum.width < 2 ^ 16
  exact Nat.mod_lt _ (by decide)

theorem setState_valid (h : UnpackedHeader) (hv : h.Valid) (v : Nat) :
    (h.setState v).Valid := by
  obtain ⟨h1, h2, h3, h4, h5, h6, h7⟩ := hv
  refine ⟨h1, h2, h3, ?_, h5, h6, h7⟩
  show v % 2 ^ Field.State.width < 4
  exact Nat.mod_lt _ (by decide)

theorem setAllocType_valid (h : UnpackedHeader) (hv : h.Valid) (v : Nat) :
    (h.setAllocType v).Valid := by
  obtain ⟨h1, h2, h3, h4, h5, h6, h7⟩ := hv
  refine ⟨h1, h2, h3, h4, ?_, h6, h7⟩
  show v % 2 ^ Field.AllocType.width < 4
  exact Nat.mod_lt _ (by decide)

theorem computeChecksum_lt (ctx : Context) (addr : Nat) (h : UnpackedHeader) :
    computeChecksum ctx addr h < 2 ^ 16 :=
  Nat.mod_lt _ (by decide)

/-- C1: for every UnpackedHeader whose fields are within their declared widths
(Checksum below 2^16, SizeOrUnusedBytes below 2^19, FromPrimary below 2, State
below 4, AllocType below 4, Offset below 2^16, Salt below 2^8), packing gives a
64-bit word and unpacking that word gives back the header, field for field. -/
theorem C1_unpack_pack_roundtrip (h : UnpackedHeader)
    (hChecksum : h.Checksum < 2 ^ 16) (hSize : h.SizeOrUnusedBytes < 2 ^ 19)
    (hFromPrimary : h.FromPrimary < 2) (hState : h.State < 4) (hAllocType : h.AllocType < 4)
    (hOffset : h.Offset < 2 ^ 16) (hSalt : h.Salt < 2 ^ 8) :
    pack h < 2 ^ 64 ∧ unpack (pack h) = h ∧
      (unpack (pack h)).Checksum = h.Checksum ∧
      (unpack (pack h)).SizeOrUnusedBytes = h.SizeOrUnusedBytes ∧
      (unpack (pack h)).FromPrimary = h.FromPrimary ∧
      (unpack (pack h)).State = h.State ∧
      (unpack (pack h)).AllocType = h.AllocType ∧
      (unpack (pack h)).Offset = h.Offset ∧
      (unpack (pack h)).Salt = h.Salt := by
  have hv : h.Valid := ⟨hChecksum, hSize, hFromPrimary, hState, hAllocType, hOffset, hSalt⟩
  have hrt := unpack_pack h hv
  refine ⟨pack_lt h hv, hrt, ?_, ?_, ?_, ?_, ?_, ?_, ?_⟩ <;> rw [hrt]

/-- Witness for C1: a header with every field at its largest value. -/
theorem C1_unpack_pack_roundtrip_witness :
    pack ⟨65535, 524287, 1, 3, 3, 65535, 255⟩ < 2 ^ 64 ∧
      unpack (pack ⟨65535, 524287, 1, 3, 3, 65535, 255⟩) = ⟨65535, 524287, 1, 3, 3, 65535, 255⟩ :=
  have w := C1_unpack_pack_roundtrip ⟨65535, 524287, 1, 3, 3, 65535, 255⟩
    (by decide) (by decide) (by decide) (by decide) (by decide) (by decide) (by decide)
  ⟨w.1, w.2.1⟩

/-- C5: the chunk header is exactly one 64-bit word. The declared widths of the
seven fields are 16, 19, 1, 2, 2, 16 and 8 and sum to exactly 64, the layout
ends at bit 64, so sizeof(UnpackedHeader) equals sizeof(PackedHeader), the
compile-time check holds, and ChunkHeaderSize is 8 bytes. -/
theorem C5_header_is_one_64_bit_word :
    Field.all.map Field.width = [16, 19, 1, 2, 2, 16, 8] ∧
      (Field.all.map Field.width).sum = 64 ∧
      headerLayout.2 = PackedHeaderBits ∧
      sizeofUnpackedHeader = sizeofPackedHeader ∧
      headerCompilerCheck = true ∧
      ChunkHeaderSize = 8 := by
  decide

/-- C8: every ChunkState value (0, 1, 2) and every AllocType value (0, 1, 2, 3)
fits its 2-bit header field: writing the enumerator into the State
(respectively AllocType) field of a header, packing, unpacking and reading the
field back yields the same value, and distinct enumerators yield distinct field
contents. -/
theorem C8_enum_values_fit_two_bit_fields (h : UnpackedHeader) (hv : h.Valid) :
    (ChunkState.ChunkAvailable.toNat = 0 ∧ ChunkState.ChunkAllocated.toNat = 1 ∧
      ChunkState.ChunkQuarantine.toNat = 2) ∧
    (AllocType.FromMalloc.toNat = 0 ∧ AllocType.FromNew.toNat = 1 ∧
      AllocType.FromNewArray.toNat = 2 ∧ AllocType.FromMemalign.toNat = 3) ∧
    (∀ s : ChunkState, s.toNat < 2 ^ Field.State.width ∧
      (unpack (pack (h.setState s.toNat))).State = s.toNat) ∧
    (∀ a : AllocType, a.toNat < 2 ^ Field.AllocType.width ∧
      (unpack (pack (h.setAllocType a.toNat))).AllocType = a.toNat) ∧
    (∀ s₁ s₂ : ChunkState, s₁ ≠ s₂ →
      (unpack (pack (h.setState s₁.toNat))).State ≠
        (unpack (pack (h.setState s₂.toNat))).State) ∧
    (∀ a₁ a₂ : AllocType, a₁ ≠ a₂ →
      (unpack (pack (h.setAllocType a₁.toNat))).AllocType ≠
        (unpack (pack (h.setAllocType a₂.toNat))).AllocType) := by
  have hS : ∀ s : ChunkState, (unpack (pack (h.setState s.toNat))).State = s.toNat := by
    intro s
    rw [unpack_pack _ (setState_valid h hv _)]
    cases s <;> rfl
  have hA : ∀ a : AllocType, (unpack (pack (h.setAllocType a.toNat))).AllocType = a.toNat := by
    intro a
    rw [unpack_pack _ (setAllocType_valid h hv _)]
    cases a <;> rfl
  refine ⟨⟨rfl, rfl, rfl⟩, ⟨rfl, rfl, rfl, rfl⟩, ?_, ?_, ?_, ?_⟩
  · intro s
    exact ⟨by cases s <;> decide, hS s⟩
  · intro a
    exact ⟨by cases a <;> decide, hA a⟩
  · intro s₁ s₂ hne
    rw [hS, hS]
    cases s₁ <;> cases s₂ <;> first | exact absurd rfl hne | decide
  · intro a₁ a₂ hne
    rw [hA, hA]
    cases a₁ <;> cases a₂ <;> first | exact absurd rfl hne | decide

/-- Witness for C8: the all-ones header. -/
theorem C8_enum_values_fit_two_bit_fields_witness :
    (unpack (pack (UnpackedHeader.setState ⟨65535, 524287, 1, 3, 3, 65535, 255⟩
        ChunkState.ChunkQuarantine.toNat))).State = 2 ∧
      (unpack (pack (UnpackedHeader.setAllocType ⟨65535, 524287, 1, 3, 3, 65535, 255⟩
        AllocType.FromMemalign.toNat))).AllocType = 3 :=
  have w := C8_enum_values_fit_two_bit_fields ⟨65535, 524287, 1, 3, 3, 65535, 255⟩
    (by decide)
  ⟨(w.2.2.1 .ChunkQuarantine).2, (w.2.2.2.1 .FromMemalign).2⟩

/-- C9: the header layout has no unused or overlapping bits. Each field starts
where the previous one ends, the first at bit 0 and the last ending at bit 64,
so every bit position below 64 lies in exactly one field. For every 64-bit word
w, unpack w is in range and pack (unpack w) = w; a packed in-range header is a
64-bit word; and two in-range headers that differ pack to different words. -/
theorem C9_layout_is_a_bijection (w : Nat) (hw : w < 2 ^ 64)
    (h₁ h₂ : UnpackedHeader) (hv₁ : h₁.Valid) (hv₂ : h₂.Valid) :
    (Field.all.map Field.offset = [0, 16, 35, 36, 38, 40, 56] ∧
      (∀ f : Field, f.offset + f.width ≤ 64) ∧
      (∀ i, i < 64 → ∃ f : Field, f.offset ≤ i ∧ i < f.offset + f.width) ∧
      (∀ (f g : Field) (i : Nat), f.offset ≤ i → i < f.offset + f.width →
        g.offset ≤ i → i < g.offset + g.width → f = g)) ∧
    (unpack w).Valid ∧ pack (unpack w) = w ∧
    pack h₁ < 2 ^ 64 ∧ unpack (pack h₁) = h₁ ∧
    (pack h₁ = pack h₂ → h₁ = h₂) ∧ (h₁ ≠ h₂ → pack h₁ ≠ pack h₂) := by
  have hinj : pack h₁ = pack h₂ → h₁ = h₂ := by
    intro he
    rw [← unpack_pack h₁ hv₁, ← unpack_pack h₂ hv₂, he]
  refine ⟨⟨by decide, ?_, ?_, ?_⟩, unpack_valid w, pack_unpack w hw, pack_lt h₁ hv₁,
    unpack_pack h₁ hv₁, hinj, fun hne he => hne (hinj he)⟩
  · intro f
    cases f <;> decide
  · intro i hi
    by_cases h16 : i < 16
    · exact ⟨.Checksum, by rw [offset_Checksum]; omega, by rw [offset_Checksum]; simp [Field.width]; omega⟩
    by_cases h35 : i < 35
    · exact ⟨.SizeOrUnusedBytes, by rw [offset_SizeOrUnusedBytes]; omega,
        by rw [offset_SizeOrUnusedBytes]; simp [Field.width]; omega⟩
    by_cases h36 : i < 36
    · exact ⟨.FromPrimary, by rw [offset_FromPrimary]; omega,
        by rw [offset_FromPrimary]; simp [Field.width]; omega⟩
    by_cases h38 : i < 38
    · exact ⟨.State, by rw [offset_State]; omega, by rw [offset_State]; simp [Field.width]; omega⟩
    by_cases h40 : i < 40
    · exact ⟨.AllocType, by rw [offset_AllocType]; omega,
        by rw [offset_AllocType]; simp [Field.width]; omega⟩
    by_cases h56 : i < 56
    · exact ⟨.Offset, by rw [offset_Offset]; omega, by rw [offset_Offset]; simp [Field.width]; omega⟩
    · exact ⟨.Salt, by rw [offset_Salt]; omega, by rw [offset_Salt]; simp [Field.width]; omega⟩
  · intro f g i hf1 hf2 hg1 hg2
    cases f <;> cases g <;>
      simp only [offset_Checksum, offset_SizeOrUnusedBytes, offset_FromPrimary, offset_State,
        offset_AllocType, offset_Offset, offset_Salt, Field.width] at hf1 hf2 hg1 hg2 <;>
      first | rfl | omega

/-- Witness for C9: the all-ones word and two headers that differ in Salt. -/
theorem C9_layout_is_a_bijection_witness :
    pack (unpack (2 ^ 64 - 1)) = 2 ^ 64 - 1 ∧
      pack ⟨1, 2, 1, 1, 0, 3, 4⟩ ≠ pack ⟨1, 2, 1, 1, 0, 3, 5⟩ :=
  have w := C9_layout_is_a_bijection (2 ^ 64 - 1) (by decide)
    ⟨1, 2, 1, 1, 0, 3, 4⟩ ⟨1, 2, 1, 1, 0, 3, 5⟩ (by decide) (by decide)
  ⟨w.2.2.1, w.2.2.2.2.2.2 (by decide)⟩

/-! ## Claims about the alignment constants -/

/-- C6: MinAlignment is 8 bytes on a 32-bit target (MinAlignmentLog = 3) and 16
bytes on a 64-bit target (MinAlignmentLog = 4); MaxAlignment is exactly 16 MiB
(16777216 bytes); on both targets both constants are powers of two and
MinAlignment is below MaxAlignment. -/
theorem C6_alignment_constants :
    (MinAlignmentLog .w32 = 3 ∧ MinAlignment .w32 = 8) ∧
    (MinAlignmentLog .w64 = 4 ∧ MinAlignment .w64 = 16) ∧
    MaxAlignmentLog = 24 ∧
    (∀ t : Target, MinAlignment t = 2 ^ MinAlignmentLog t ∧
      MaxAlignment t = 2 ^ MaxAlignmentLog ∧
      MaxAlignment t = 16777216 ∧ MaxAlignment t = 16 * 1024 * 1024 ∧
      MinAlignment t < MaxAlignment t) := by
  refine ⟨by decide, by decide, rfl, ?_⟩
  intro t
  cases t <;> decide

/-- Masking a `w`-bit value with `2^w - 2^k` clears its low `k` bits. -/
theorem and_high_mask (w k x : Nat) (hk : k ≤ w) (hx : x < 2 ^ w) :
    x &&& (2 ^ w - 2 ^ k) = x / 2 ^ k * 2 ^ k := by
  have hmask : 2 ^ w - 2 ^ k = (2 ^ (w - k) - 1) <<< k := by
    rw [Nat.shiftLeft_eq, Nat.sub_mul, one_mul, ← pow_add, Nat.sub_add_cancel hk]
  have hrhs : x / 2 ^ k * 2 ^ k = (x >>> k) <<< k := by
    rw [Nat.shiftLeft_eq, Nat.shiftRight_eq_div_pow]
  rw [hmask, hrhs]
  apply Nat.eq_of_testBit_eq
  intro i
  simp only [Nat.testBit_and, Nat.testBit_shiftLeft, Nat.testBit_shiftRight,
    Nat.testBit_two_pow_sub_one]
  by_cases hik : k ≤ i
  · have e : k + (i - k) = i := by omega
    rw [e]
    by_cases hiw : i < w
    · have : i - k < w - k := by omega
      simp [hik, this]
    · have hxi : x.testBit i = false := by
        apply Nat.testBit_lt_two_pow
        exact lt_of_lt_of_le hx (Nat.pow_le_pow_right (by decide) (by omega))
      simp [hxi]
  · simp [hik]

/-- The rounding expression on `w`-bit words, for a power-of-two alignment and
no overflow, is `(n + a - 1) / a * a`. -/
theorem alignUp_eq (w n k : Nat) (hk : k < w) (hno : n + 2 ^ k - 1 < 2 ^ w) :
    alignUp w n (2 ^ k) = (n + 2 ^ k - 1) / 2 ^ k * 2 ^ k := by
  have ha1 : 1 ≤ 2 ^ k := Nat.one_le_two_pow
  have haw : 2 ^ k < 2 ^ w := Nat.pow_lt_pow_right (by decide) hk
  have hw2 : 2 ≤ 2 ^ w := by omega
  have h1 : 1 % 2 ^ w = 1 := Nat.mod_eq_of_lt (by omega)
  have hsum : usub w (uadd w n (2 ^ k)) 1 = n + 2 ^ k - 1 := by
    unfold usub uadd
    rw [Nat.mod_mod, h1]
    by_cases hlt : n + 2 ^ k < 2 ^ w
    · rw [Nat.mod_eq_of_lt hlt]
      have e : n + 2 ^ k + 2 ^ w - 1 = (n + 2 ^ k - 1) + 2 ^ w := by omega
      rw [e, Nat.add_mod_right, Nat.mod_eq_of_lt hno]
    · have heq : n + 2 ^ k = 2 ^ w := by omega
      rw [heq, Nat.mod_self, Nat.zero_add, Nat.mod_eq_of_lt (by omega)]
  have hmask : unot w (usub w (2 ^ k) 1) = 2 ^ w - 2 ^ k := by
    have hs : usub w (2 ^ k) 1 = 2 ^ k - 1 := by
      unfold usub
      rw [h1, Nat.mod_eq_of_lt haw]
      have e : 2 ^ k + 2 ^ w - 1 = (2 ^ k - 1) + 2 ^ w := by omega
      rw [e, Nat.add_mod_right, Nat.mod_eq_of_lt (by omega)]
    unfold unot
    rw [hs, Nat.mod_eq_of_lt (by omega)]
    omega
  unfold alignUp
  rw [hsum, hmask, and_high_mask w k _ (le_of_lt hk) hno]

/-- Rounding up with division gives the least multiple that is large enough. -/
theorem isLeastMultipleGE_div (a n : Nat) (ha : 0 < a) :
    IsLeastMultipleGE a n ((n + a - 1) / a * a) := by
  have hdm := Nat.div_add_mod (n + a - 1) a
  have hmod := Nat.mod_lt (n + a - 1) ha
  have hcomm : (n + a - 1) / a * a = a * ((n + a - 1) / a) := Nat.mul_comm _ _
  refine ⟨Dvd.intro_left _ rfl, by omega, ?_⟩
  intro m hdvd hnm
  obtain ⟨c, rfl⟩ := hdvd
  rw [hcomm]
  apply Nat.mul_le_mul_left
  by_contra hlt
  have hc : c + 1 ≤ (n + a - 1) / a := by omega
  have hmul : a * (c + 1) ≤ a * ((n + a - 1) / a) := Nat.mul_le_mul_left a hc
  rw [Nat.mul_add, Nat.mul_one] at hmul
  omega

/-- C7: for every size n and every power-of-two alignment a = 2^k on a w-bit
word, when n + a - 1 does not overflow, (n + a - 1) & ~(a - 1) is the least
multiple of a that is at least n. AlignedChunkHeaderSize is this expression at
ChunkHeaderSize and MinAlignment: it is the least multiple of MinAlignment that
is at least ChunkHeaderSize on both targets, 8 when MinAlignment is 8 and 16
when MinAlignment is 16. -/
theorem C7_aligned_header_size_is_least_multiple (w n k : Nat) (hk : k < w)
    (hno : n + 2 ^ k - 1 < 2 ^ w) :
    IsLeastMultipleGE (2 ^ k) n (alignUp w n (2 ^ k)) ∧
    (∀ t : Target, AlignedChunkHeaderSize t = alignUp t.bits ChunkHeaderSize (MinAlignment t) ∧
      IsLeastMultipleGE (MinAlignment t) ChunkHeaderSize (AlignedChunkHeaderSize t)) ∧
    (MinAlignment .w32 = 8 ∧ AlignedChunkHeaderSize .w32 = 8) ∧
    (MinAlignment .w64 = 16 ∧ AlignedChunkHeaderSize .w64 = 16) := by
  refine ⟨?_, ?_, by decide, by decide⟩
  · rw [alignUp_eq w n k hk hno]
    exact isLeastMultipleGE_div _ n Nat.one_le_two_pow
  · intro t
    refine ⟨rfl, ?_⟩
    cases t
    · have e : MinAlignment .w32 = 2 ^ 3 := by decide
      show IsLeastMultipleGE (MinAlignment .w32) ChunkHeaderSize
        (alignUp 32 ChunkHeaderSize (MinAlignment .w32))
      rw [e, alignUp_eq 32 _ 3 (by decide) (by decide)]
      exact isLeastMultipleGE_div _ _ (by decide)
    · have e : MinAlignment .w64 = 2 ^ 4 := by decide
      show IsLeastMultipleGE (MinAlignment .w64) ChunkHeaderSize
        (alignUp 64 ChunkHeaderSize (MinAlignment .w64))
      rw [e, alignUp_eq 64 _ 4 (by decide) (by decide)]
      exact isLeastMultipleGE_div _ _ (by decide)

/-- Witness for C7: rounding 40 up to a multiple of 16 on a 64-bit word. -/
theorem C7_aligned_header_size_is_least_multiple_witness :
    alignUp 64 40 (2 ^ 4) = 48 ∧ IsLeastMultipleGE (2 ^ 4) 40 (alignUp 64 40 (2 ^ 4)) :=
  ⟨by decide, (C7_aligned_header_size_is_least_multiple 64 40 4 (by decide) (by decide)).1⟩

/-- C10 (as stated, refuted): on the 64-bit target the alignment 2^24 lies
between MinAlignment and MaxAlignment, yet its offset is 1048575, which is not
below 2^16, and storing it in the Offset field reads back 65535. -/
theorem C10_offset_overflow_counterexample :
    MinAlignment .w64 ≤ 2 ^ 24 ∧ 2 ^ 24 ≤ MaxAlignment .w64 ∧
      offsetForAlignment .w64 (2 ^ 24) = 1048575 ∧
      ¬ offsetForAlignment .w64 (2 ^ 24) < 2 ^ 16 ∧
      (sampleHeader.setOffset (offsetForAlignment .w64 (2 ^ 24))).Offset = 65535 ∧
      ¬ (∀ (t : Target) (k : Nat), MinAlignment t ≤ 2 ^ k → 2 ^ k ≤ MaxAlignment t →
        offsetForAlignment t (2 ^ k) < 2 ^ 16) := by
  refine ⟨by decide, by decide, by decide, by decide, by decide, ?_⟩
  intro hall
  exact absurd (hall .w64 24 (by decide) (by decide)) (by decide)

/-- C10 (amended): for every power-of-two alignment A with MinAlignment at most
A and A at most MaxAlignment, on both targets, the value
(A - AlignedChunkHeaderSize) >> MinAlignmentLog is below 2^16, and is read back
unchanged after being stored in the Offset field, exactly when A is at most
MinAlignment << 16, which is 2^19 on a 32-bit target and 2^20 on a 64-bit
target. -/
theorem C10_offset_fits_iff_alignment_small (t : Target) (k : Nat)
    (hlo : MinAlignment t ≤ 2 ^ k) (hhi : 2 ^ k ≤ MaxAlignment t) :
    (offsetForAlignment t (2 ^ k) < 2 ^ 16 ↔ 2 ^ k ≤ MinAlignment t <<< 16) ∧
    (∀ h : UnpackedHeader,
      (h.setOffset (offsetForAlignment t (2 ^ k))).Offset = offsetForAlignment t (2 ^ k) ↔
        2 ^ k ≤ MinAlignment t <<< 16) ∧
    MinAlignment .w32 <<< 16 = 2 ^ 19 ∧ MinAlignment .w64 <<< 16 = 2 ^ 20 := by
  have hk24 : k ≤ 24 := by
    have hM : MaxAlignment t = 2 ^ 24 := by cases t <;> decide
    rw [hM] at hhi
    exact (Nat.pow_le_pow_iff_right (by decide)).mp hhi
  have hk3 : 3 ≤ k := by
    by_contra hlt
    have h8 : 8 ≤ MinAlignment t := by cases t <;> decide
    have hk : k ≤ 2 := by omega
    interval_cases k <;> omega
  have hread : ∀ (h : UnpackedHeader) (v : Nat), (h.setOffset v).Offset = v % 2 ^ 16 :=
    fun _ _ => rfl
  refine ⟨?_, ?_, by decide, by decide⟩
  · cases t <;> interval_cases k <;> first | decide | exact absurd hlo (by decide)
  · intro h
    rw [hread]
    cases t <;> interval_cases k <;> first | decide | exact absurd hlo (by decide)

/-- Witness for C10 (amended): the alignment 2^20 on the 64-bit target. -/
theorem C10_offset_fits_iff_alignment_small_witness :
    offsetForAlignment .w64 (2 ^ 20) < 2 ^ 16 ∧
      (sampleHeader.setOffset (offsetForAlignment .w64 (2 ^ 20))).Offset =
        offsetForAlignment .w64 (2 ^ 20) :=
  have w := C10_offset_fits_iff_alignment_small .w64 20 (by decide) (by decide)
  ⟨w.1.mpr (by decide), (w.2.1 sampleHeader).mpr (by decide)⟩

/-! ## Claims about the chunk protocol -/

/-- C4: for every requested alignment greater than MaxAlignment (1 << 24
bytes), allocate(size, alignment, type) is rejected with UnsupportedAlignment
for every size and allocation type; in particular allocate(16, 1 << 30, Malloc)
fails with UnsupportedAlignment. -/
theorem C4_oversized_alignment_rejected (t : Target)
    (place : Nat → Nat → AllocType → Option Nat) (size alignment : Nat) (ty : AllocType)
    (hbig : MaxAlignment t < alignment) :
    MaxAlignment t = 1 <<< 24 ∧
      allocate t place size alignment ty = .error .UnsupportedAlignment ∧
      allocate t place 16 (1 <<< 30) .FromMalloc = .error .UnsupportedAlignment := by
  have hM : MaxAlignment t = 1 <<< 24 := by cases t <;> decide
  refine ⟨hM, ?_, ?_⟩
  · unfold allocate
    rw [if_pos hbig]
  · unfold allocate
    rw [if_pos (by rw [hM]; decide)]

/-- Witness for C4: a 16-byte request aligned to 1 << 30 on the 64-bit
target. -/
theorem C4_oversized_alignment_rejected_witness :
    allocate .w64 samplePlace 16 (1 <<< 30) .FromMalloc = .error .UnsupportedAlignment :=
  (C4_oversized_alignment_rejected .w64 samplePlace 16 (1 <<< 30) .FromMalloc (by decide)).2.1

/-! ## Bit flips in a stored header -/

theorem xor_two_pow_ne (c i : Nat) : c ^^^ 2 ^ i ≠ c := by
  intro he
  have hb := congrArg (fun x => Nat.testBit x i) he
  simp only [Nat.testBit_xor, Nat.testBit_two_pow_self] at hb
  cases hc : c.testBit i <;> simp [hc] at hb

theorem xor_two_pow_div (x i n : Nat) (hi : i < n) : (x ^^^ 2 ^ i) / 2 ^ n = x / 2 ^ n := by
  rw [← Nat.shiftRight_eq_div_pow, ← Nat.shiftRight_eq_div_pow]
  apply Nat.eq_of_testBit_eq
  intro j
  have hne : i ≠ n + j := by omega
  simp [Nat.testBit_shiftRight, Nat.testBit_xor, Nat.testBit_two_pow, hne]

theorem xor_two_pow_mod (x i n : Nat) (hi : i < n) :
    (x ^^^ 2 ^ i) % 2 ^ n = (x % 2 ^ n) ^^^ 2 ^ i := by
  apply Nat.eq_of_testBit_eq
  intro j
  simp only [Nat.testBit_mod_two_pow, Nat.testBit_xor, Nat.testBit_two_pow]
  by_cases hj : j < n
  · simp [hj]
  · have hne : i ≠ j := by omega
    simp [hj, hne]

/-- Flipping a bit below 16 of a word changes the unpacked checksum field in
that bit and leaves every other field as it was. -/
theorem unpack_xor_low (x i : Nat) (hi : i < 16) :
    unpack (x ^^^ 2 ^ i) = { unpack x with Checksum := (unpack x).Checksum ^^^ 2 ^ i } := by
  have hdiv := xor_two_pow_div x i 16 hi
  have hmod := xor_two_pow_mod x i 16 hi
  rw [unpack_eq, unpack_eq]
  simp only [UnpackedHeader.mk.injEq]
  refine ⟨hmod, ?_, ?_, ?_, ?_, ?_, ?_⟩ <;>
    (generalize x ^^^ 2 ^ i = y at hdiv; omega)

/-- Flipping one of the sixteen checksum bits of a stored header makes the load
fail with `CorruptHeader`, whatever the digest function is. -/
theorem loadHeader_flip_checksum_bit (ctx : Context) (mem : Memory) (addr : Nat)
    (h : UnpackedHeader) (hv : h.Valid) (i : Nat) (hi : i < 16) :
    loadHeader ctx (flipBit (storeHeader ctx mem addr h) addr i) addr = .error .CorruptHeader := by
  have hv2 := setChecksum_valid h hv (computeChecksum ctx addr h)
  have hlt : pack (h.setChecksum (computeChecksum ctx addr h)) < 2 ^ 64 := pack_lt _ hv2
  have hflt : pack (h.setChecksum (computeChecksum ctx addr h)) ^^^ 2 ^ i <
      2 ^ PackedHeaderBits :=
    Nat.xor_lt_two_pow hlt (Nat.pow_lt_pow_right (by decide) (lt_trans hi (by decide)))
  have hone : 1 <<< i = 2 ^ i := by rw [Nat.shiftLeft_eq, one_mul]
  have hc : (h.setChecksum (computeChecksum ctx addr h)).Checksum = computeChecksum ctx addr h :=
    Nat.mod_eq_of_lt (computeChecksum_lt ctx addr h)
  unfold loadHeader flipBit storeHeader
  simp only [if_true]
  rw [hone, Nat.mod_eq_of_lt hflt, unpack_xor_low _ i hi, unpack_pack _ hv2]
  have hcs : computeChecksum ctx addr
      { h.setChecksum (computeChecksum ctx addr h) with
        Checksum := (h.setChecksum (computeChecksum ctx addr h)).Checksum ^^^ 2 ^ i } =
      computeChecksum ctx addr h := rfl
  rw [hcs, hc, if_neg (xor_two_pow_ne _ i)]

theorem xor_two_pow_mod_high (x i n : Nat) (hi : n ≤ i) :
    (x ^^^ 2 ^ i) % 2 ^ n = x % 2 ^ n := by
  apply Nat.eq_of_testBit_eq
  intro j
  simp only [Nat.testBit_mod_two_pow, Nat.testBit_xor, Nat.testBit_two_pow]
  by_cases hj : j < n
  · have hne : i ≠ j := by omega
    simp [hj, hne]
  · simp [hj]

theorem xor_two_pow_clear_low (x i n : Nat) (hi : n ≤ i) :
    (x ^^^ 2 ^ i) / 2 ^ n * 2 ^ n = (x / 2 ^ n * 2 ^ n) ^^^ 2 ^ i := by
  rw [← Nat.shiftRight_eq_div_pow, ← Nat.shiftRight_eq_div_pow, ← Nat.shiftLeft_eq,
    ← Nat.shiftLeft_eq]
  apply Nat.eq_of_testBit_eq
  intro j
  simp only [Nat.testBit_shiftLeft, Nat.testBit_shiftRight, Nat.testBit_xor, Nat.testBit_two_pow]
  by_cases hj : n ≤ j
  · have e : n + (j - n) = j := by omega
    simp [hj, e]
  · have hne : i ≠ j := by omega
    simp [hj, hne]

/-- The packed fields other than the checksum of an unpacked 64-bit word are
the word with its low sixteen bits cleared. -/
theorem pack_unpack_zero_checksum (y : Nat) (hy : y < 2 ^ 64) :
    pack { unpack y with Checksum := 0 } = y / 2 ^ 16 * 2 ^ 16 := by
  have hv : ({ unpack y with Checksum := 0 } : UnpackedHeader).Valid := by
    obtain ⟨_, h2, h3, h4, h5, h6, h7⟩ := unpack_valid y
    exact ⟨Nat.two_pow_pos 16, h2, h3, h4, h5, h6, h7⟩
  rw [pack_eq_sum _ hv, unpack_eq]
  simp only
  omega

/-- Flipping one of the forty-eight bits outside the checksum of a stored
header is detected exactly when the digest of the changed fields differs from
the digest of the stored fields. -/
theorem loadHeader_flip_field_bit (ctx : Context) (mem : Memory) (addr : Nat)
    (h : UnpackedHeader) (hv : h.Valid) (i : Nat) (hlo : 16 ≤ i) (hhi : i < 64) :
    loadHeader ctx (flipBit (storeHeader ctx mem addr h) addr i) addr = .error .CorruptHeader ↔
      ctx.digest addr (pack { h with Checksum := 0 } ^^^ 2 ^ i) ctx.secret % 2 ^ 16 ≠
        ctx.digest addr (pack { h with Checksum := 0 }) ctx.secret % 2 ^ 16 := by
  have hv2 := setChecksum_valid h hv (computeChecksum ctx addr h)
  have hlt : pack (h.setChecksum (computeChecksum ctx addr h)) < 2 ^ 64 := pack_lt _ hv2
  have hflt : pack (h.setChecksum (computeChecksum ctx addr h)) ^^^ 2 ^ i < 2 ^ 64 :=
    Nat.xor_lt_two_pow hlt (Nat.pow_lt_pow_right (by decide) hhi)
  have hone : 1 <<< i = 2 ^ i := by rw [Nat.shiftLeft_eq, one_mul]
  have hup := unpack_pack _ hv2
  have hstored : pack (h.setChecksum (computeChecksum ctx addr h)) / 2 ^ 16 * 2 ^ 16 =
      pack { h with Checksum := 0 } := by
    rw [← pack_unpack_zero_checksum _ hlt, hup]
    rfl
  have hcs : (unpack (pack (h.setChecksum (computeChecksum ctx addr h)) ^^^ 2 ^ i)).Checksum =
      computeChecksum ctx addr h := by
    have e1 : (unpack (pack (h.setChecksum (computeChecksum ctx addr h)) ^^^ 2 ^ i)).Checksum =
        (pack (h.setChecksum (computeChecksum ctx addr h)) ^^^ 2 ^ i) % 2 ^ 16 := by
      rw [unpack_eq]
    have e2 : (unpack (pack (h.setChecksum (computeChecksum ctx addr h)))).Checksum =
        pack (h.setChecksum (computeChecksum ctx addr h)) % 2 ^ 16 := by
      rw [unpack_eq]
    rw [e1, xor_two_pow_mod_high _ i 16 hlo, ← e2, hup]
    exact Nat.mod_eq_of_lt (computeChecksum_lt ctx addr h)
  have hdig : computeChecksum ctx addr
      (unpack (pack (h.setChecksum (computeChecksum ctx addr h)) ^^^ 2 ^ i)) =
      ctx.digest addr (pack { h with Checksum := 0 } ^^^ 2 ^ i) ctx.secret % 2 ^ 16 := by
    have e : computeChecksum ctx addr
        (unpack (pack (h.setChecksum (computeChecksum ctx addr h)) ^^^ 2 ^ i)) =
        ctx.digest addr
          (pack { unpack (pack (h.setChecksum (computeChecksum ctx addr h)) ^^^ 2 ^ i) with
            Checksum := 0 }) ctx.secret % 2 ^ 16 := rfl
    rw [e, pack_unpack_zero_checksum _ hflt, xor_two_pow_clear_low _ i 16 hlo, hstored]
  have hc0 : computeChecksum ctx addr h =
      ctx.digest addr (pack { h with Checksum := 0 }) ctx.secret % 2 ^ 16 := rfl
  unfold loadHeader flipBit storeHeader
  simp only [if_true]
  rw [hone, Nat.mod_eq_of_lt (show _ < 2 ^ PackedHeaderBits from hflt), hcs, hdig, hc0]
  constructor
  · intro hres heq
    rw [if_pos heq.symm] at hres
    cases hres
  · intro hne
    rw [if_neg (fun heq => hne heq.symm)]

/-- With the additive digest of the sample context, flipping bit 16 (the lowest
size bit) of the stored sample header goes undetected: the load succeeds. -/
theorem additive_digest_misses_flip :
    loadHeader sampleContext (flipBit sampleMemory 4096 16) 4096 =
      .ok { sampleHeader with Checksum := 52975, SizeOrUnusedBytes := 41 } := by
  rfl

end Scudo
